import Mathlib

/-!
Verification of the package-target module (`blade/package_target.py`).

The module builds an archive ("package") target: it classifies `srcs`
entries into filesystem sources and location references, resolves
filesystem paths (with directory expansion via `os.walk`), tracks
dependencies implied by location references, and emits scons rules.

Embedding conventions:
* Python strings are `String`; `'..' in s` is the substring test `hasSubstr`.
* `os.path.join`, `os.path.relpath` (for already-normalised relative paths)
  and `os.walk` are modelled over an explicit filesystem tree `FsNode`.
* Fatal `console.error_exit` calls are modelled as `Except.error` carrying
  the formatted message; `console.warning` messages are collected in a list.
* Methods of the external `Target` base class (`_source_file_path`,
  `_var_name`, `_env_name`, `_target_file_path`, `_unify_dep`) and the
  global registry are not under src/; they are modelled from the spec as
  abstract parameters or fields, marked `Modelled from the spec:`.
-/

namespace PackageTarget

/-- The two-character sequence of a parent-directory traversal,
used by the check `'..' in src` at package_target.py:104. -/
def dotdot : List Char := ['.', '.']

/-- Python's substring test `pat in s`, on the character lists of strings. -/
def hasSubstr (pat : List Char) : List Char → Bool
  | [] => pat.isEmpty
  | c :: rest => pat.isPrefixOf (c :: rest) || hasSubstr pat rest

/-- `src.startswith('//')` (package_target.py:107): the workspace-root marker. -/
def starts_with_root_marker (s : String) : Bool := ['/', '/'].isPrefixOf s.data

/-- Python `src[2:]`: drop the two marker characters (package_target.py:108). -/
def strDrop2 (s : String) : String := String.mk (s.data.drop 2)

/-- Model of `posixpath.join(a, b)` for two arguments: if `b` is absolute it
wins; otherwise `b` is appended to `a` with a separator unless `a` is empty
or already ends in a separator. -/
def osJoin (a b : String) : String :=
  if b.data.head? = some '/' then b
  else if a.data = [] then b
  else if a.data.getLast? = some '/' then String.mk (a.data ++ b.data)
  else String.mk (a.data ++ '/' :: b.data)

/-- Split a character list at `'/'`, dropping empty segments — the
segment view `[x for x in p.split(sep) if x]` used by `posixpath.relpath`.
`cur` is the (reversed) segment being accumulated. -/
def segsAux (cur : List Char) : List Char → List (List Char)
  | [] => if cur.isEmpty then [] else [cur.reverse]
  | c :: cs =>
      if c = '/' then
        if cur.isEmpty then segsAux [] cs else cur.reverse :: segsAux [] cs
      else segsAux (c :: cur) cs

/-- Path segments of a character list. -/
def segsChars (l : List Char) : List (List Char) := segsAux [] l

/-- Path segments of a string, as strings (used for filesystem lookup). -/
def segsStr (s : String) : List String := (segsChars s.data).map String.mk

/-- Length of the longest common prefix of two segment lists
(`posixpath.commonprefix` on split paths). -/
def commonLen : List (List Char) → List (List Char) → Nat
  | a :: as, b :: bs => if a = b then commonLen as bs + 1 else 0
  | _, _ => 0

/-- Join segments with `'/'` separators (no leading separator). -/
def interSlash : List (List Char) → List Char
  | [] => []
  | [s] => s
  | s :: rest => s ++ '/' :: interSlash rest

/-- Join segments into a relative-path string. -/
def joinSegStr (l : List (List Char)) : String := String.mk (interSlash l)

/-- Model of `os.path.relpath(p, start)` for relative POSIX paths that are
already free of `.` and `..` segments: both arguments are made absolute
under the same working directory, so the common working-directory prefix
cancels and the result is determined by the segment lists of `p` and
`start` alone. -/
def relpath (p start : String) : String :=
  let pl := segsChars p.data
  let sl := segsChars start.data
  let k := commonLen pl sl
  let rel := List.replicate (sl.length - k) dotdot ++ pl.drop k
  if rel = [] then "." else joinSegStr rel

/-- Modelled from the spec: `Target._source_file_path` (base class, not under
src/) resolves a source "relative to the declaring package's directory",
i.e. joins it under the package path. -/
def source_file_path (pkg_dir src : String) : String := osJoin pkg_dir src

/-- `PackageTarget._get_source_path` (package_target.py:100-115): reject any
half containing `..`, strip the `//` workspace-root marker or resolve
relative to the package directory, and default an empty destination to the
(possibly stripped) source. -/
def get_source_path (fullname pkg_dir src dst : String) :
    Except String (String × String) :=
  if hasSubstr dotdot src.data || hasSubstr dotdot dst.data then
    .error (fullname ++ ": Invalid src (" ++ src ++ ", " ++ dst ++
            "). Relative path is not allowed.")
  else if starts_with_root_marker src then
    let src2 := strDrop2 src
    .ok (src2, if dst = "" then src2 else dst)
  else
    .ok (source_file_path pkg_dir src, if dst = "" then src else dst)

/-! ### Filesystem model

`os.path.isfile` and `os.walk` query the real filesystem; we model the
filesystem as an explicit tree of directories and regular files, rooted at
the working directory from which relative paths are resolved. -/

mutual

/-- A filesystem node: a regular file or a directory with named entries. -/
inductive FsNode : Type where
  | file : FsNode
  | dir : FsEntries → FsNode

/-- Ordered named entries of a directory (the order `os.listdir` reports). -/
inductive FsEntries : Type where
  | nil : FsEntries
  | cons : String → FsNode → FsEntries → FsEntries

end

/-- Is the node a directory? -/
def isDirNode : FsNode → Bool
  | .file => false
  | .dir _ => true

mutual

/-- Resolve a segment path against the tree: descend by entry name. -/
def fs_lookup : FsNode → List String → Option FsNode
  | t, [] => some t
  | .file, _ :: _ => none
  | .dir es, s :: rest => fs_lookup_entries es s rest

/-- Find the entry named `s` among directory entries and continue. -/
def fs_lookup_entries : FsEntries → String → List String → Option FsNode
  | .nil, _, _ => none
  | .cons n c es, s, rest =>
      if n = s then fs_lookup c rest else fs_lookup_entries es s rest

end

/-- `os.path.isfile(p)`: `p` resolves to a regular file. -/
def os_isfile (root : FsNode) (p : String) : Bool :=
  match fs_lookup root (segsStr p) with
  | some .file => true
  | _ => false

/-- Names of the directory entries that are subdirectories, in order
(`dirnames` of an `os.walk` triple). -/
def dirNames : FsEntries → List String
  | .nil => []
  | .cons n c es => (if isDirNode c then [n] else []) ++ dirNames es

/-- Names of the directory entries that are files, in order
(`filenames` of an `os.walk` triple). -/
def fileNames : FsEntries → List String
  | .nil => []
  | .cons n c es => (if isDirNode c then [] else [n]) ++ fileNames es

/-- One `os.walk` triple `(dirpath, dirnames, filenames)`. -/
abbrev Frame := String × List String × List String

mutual

/-- Top-down `os.walk` over a node known to sit at path `p`: a directory
yields its own triple first, then the walks of its subdirectories in
order; a file yields nothing. -/
def walkNode (p : String) : FsNode → List Frame
  | .file => []
  | .dir es => (p, dirNames es, fileNames es) :: walkEntries p es
termination_by structural t => t

/-- Walks of the subdirectory entries of a directory at path `p`, in
order; file entries contribute nothing. -/
def walkEntries (p : String) : FsEntries → List Frame
  | .nil => []
  | .cons _ .file es => walkEntries p es
  | .cons n (.dir cs) es => walkNode (osJoin p n) (.dir cs) ++ walkEntries p es
termination_by structural es => es

end

/-- `os.walk(top)`: locate `top` in the tree and walk it; a path that does
not resolve, or resolves to a file, yields no triples (Python's default
`onerror=None` silently swallows the failing `listdir`). -/
def os_walk (root : FsNode) (top : String) : List Frame :=
  match fs_lookup root (segsStr top) with
  | some t => walkNode top t
  | none => []

/-- The entries the inner loop of `_add_package_source`
(package_target.py:123-127) appends for one `os.walk` triple:
`(join(dir, f), join(dst, relpath(join(dir, f), src)))` for each file. -/
def frameFiles (dst src : String) (fr : Frame) : List (String × String) :=
  fr.2.2.map (fun f =>
    let fp := osJoin fr.1 f
    (fp, osJoin dst (relpath fp src)))

/-- `PackageTarget._add_package_source` (package_target.py:117-127): resolve
the pair, then append the single file, or every file of the walked
subtree, to `sources`. -/
def add_package_source (root : FsNode) (fullname pkg_dir : String)
    (sources : List (String × String)) (src dst : String) :
    Except String (List (String × String)) :=
  match get_source_path fullname pkg_dir src dst with
  | .error e => .error e
  | .ok (path, dst2) =>
      if os_isfile root path then .ok (sources ++ [(path, dst2)])
      else .ok (sources ++ (os_walk root path).flatMap (frameFiles dst2 path))

/-- A well-formed entry name: what a real directory entry can be — a
nonempty name containing no path separator. -/
def wfName (n : String) : Bool := decide (n.data ≠ [] ∧ '/' ∉ n.data)

mutual

/-- All entry names in the tree are well-formed. -/
def wfNode : FsNode → Bool
  | .file => true
  | .dir es => wfEntries es
termination_by structural t => t

/-- All entry names in the entry list and below are well-formed. -/
def wfEntries : FsEntries → Bool
  | .nil => true
  | .cons n c es => wfName n && wfNode c && wfEntries es
termination_by structural es => es

end

mutual

/-- The relative segment paths of every regular file in a node's subtree,
in `os.walk` top-down order: the directory's own files first, then the
subtrees of its subdirectories in entry order. Each regular file of the
subtree contributes exactly one path, and directories contribute none. -/
def filesUnder : FsNode → List (List String)
  | .file => []
  | .dir es => (fileNames es).map (fun n => [n]) ++ filesUnderSub es
termination_by structural t => t

/-- The relative segment paths contributed by subdirectory entries. -/
def filesUnderSub : FsEntries → List (List String)
  | .nil => []
  | .cons _ .file es => filesUnderSub es
  | .cons n (.dir cs) es => (filesUnder (.dir cs)).map (n :: ·) ++ filesUnderSub es
termination_by structural es => es

end

/-- `base/r1/.../rn`: a base path extended by relative segments, one
separator before each segment. -/
def joinRel (base : String) (rel : List String) : String :=
  String.mk (base.data ++ rel.flatMap (fun n => '/' :: n.data))

/-! ### Configuration phase: `_process_srcs` -/

/-- The mutable per-target data touched during `_process_srcs`:
`data['sources']`, `data['locations']`, `deps` and `expanded_deps`. -/
structure PState where
  sources : List (String × String)
  locations : List (String × String × String)
  deps : List String
  expanded_deps : List String
  deriving DecidableEq, Repr

/-- Python whitespace, as recognised by `str.strip()`. -/
def pyIsSpace (c : Char) : Bool :=
  c = ' ' || c = '\t' || c = '\n' || c = '\r' || c = '\x0b' || c = '\x0c'

/-- Model of Python's `str.strip()`: drop whitespace at both ends. -/
def pyStrip (s : String) : String :=
  String.mk (((s.data.dropWhile pyIsSpace).reverse.dropWhile pyIsSpace).reverse)

/-- `PackageTarget._add_location_reference` (package_target.py:87-98): the
match groups give `(key, kind)` with a missing kind defaulting to the
empty string and then stripped; the key is unified; the triple is appended
to `locations` unconditionally, and the key is appended to
`expanded_deps` and `deps` only if not already present. -/
def add_location_reference (unify : String → String) (st : PState)
    (key0 : String) (kindOpt : Option String) (dst : String) : PState :=
  let kind := pyStrip (kindOpt.getD "")
  let key := unify key0
  { st with
    locations := st.locations ++ [(key, kind, dst)]
    expanded_deps :=
      if key ∈ st.expanded_deps then st.expanded_deps
      else st.expanded_deps ++ [key]
    deps := if key ∈ st.deps then st.deps else st.deps ++ [key] }

/-- A raw `srcs` element: Python accepts a string, a `(src, dst)` tuple,
and rejects anything else (`_process_srcs`, package_target.py:72-79). -/
inductive SrcSpec : Type where
  | str : String → SrcSpec
  | pair : String × String → SrcSpec
  | invalid : SrcSpec

/-- Process one `srcs` element (the body of the loop in `_process_srcs`,
package_target.py:72-85). `locMatch` models `location_re.search`
(Modelled from the spec: the location-reference pattern lives in
`blade_util`, outside src/; the spec leaves the exact syntax pluggable and
only requires the extracted `(key, kind)`, the kind being the optional
second group). `unify` models the external `Target._unify_dep`. -/
def process_one (locMatch : String → Option (String × Option String))
    (unify : String → String) (root : FsNode) (fullname pkg_dir : String)
    (st : PState) : SrcSpec → Except String PState
  | .invalid => .error (fullname ++ ": Invalid src. src should be either str or tuple.")
  | .str s => process_pair locMatch unify root fullname pkg_dir st s ""
  | .pair (s, d) => process_pair locMatch unify root fullname pkg_dir st s d
where
  /-- Dispatch on the location-reference match (package_target.py:81-85). -/
  process_pair (locMatch : String → Option (String × Option String))
      (unify : String → String) (root : FsNode) (fullname pkg_dir : String)
      (st : PState) (src dst : String) : Except String PState :=
    match locMatch src with
    | some (key, kindOpt) => .ok (add_location_reference unify st key kindOpt dst)
    | none =>
        match add_package_source root fullname pkg_dir st.sources src dst with
        | .error e => .error e
        | .ok ss => .ok { st with sources := ss }

/-- `PackageTarget._process_srcs` (package_target.py:67-85): fold
`process_one` over the `srcs` list, stopping at the first fatal error. -/
def process_srcs (locMatch : String → Option (String × Option String))
    (unify : String → String) (root : FsNode) (fullname pkg_dir : String) :
    PState → List SrcSpec → Except String PState
  | st, [] => .ok st
  | st, s :: rest =>
      match process_one locMatch unify root fullname pkg_dir st s with
      | .error e => .error e
      | .ok st2 => process_srcs locMatch unify root fullname pkg_dir st2 rest

/-- The freshly constructed state (`self.data['sources'], self.data['locations']
= [], []`, package_target.py:64) over initial dependency lists. -/
def initState (deps0 expanded0 : List String) : PState :=
  { sources := [], locations := [], deps := deps0, expanded_deps := expanded0 }

example :
    let tree : FsNode := .dir (.cons "d"
      (.dir (.cons "a" (.dir (.cons "b.txt" .file .nil))
        (.cons "c.txt" .file .nil))) .nil)
    (os_walk tree "d").flatMap (frameFiles "out" "d") =
      [("d/c.txt", "out/c.txt"), ("d/a/b.txt", "out/a/b.txt")] := by rfl

/-! ### Rule-emission phase: `scons_rules` -/

/-- One emitted scons rule, one constructor per `_write_rule` call site,
carrying exactly the data interpolated into the rule string. -/
inductive SRule : Type where
  /-- `var = env.PackageSource(target = "dst", source = "src")`
  (package_target.py:134-135): staging rule for a filesystem source. -/
  | packageSource (var env dst src : String)
  /-- `var = env.PackageSource(target = "dst", source = target_var)`
  (package_target.py:155-156): staging rule for a location output variable
  (the source is a variable reference, not a quoted path). -/
  | packageSourceVar (var env dst sourceVar : String)
  /-- `var = env.Package(target="base.type", source=[sourceVars] + [locationVars])`
  (package_target.py:174-177): the single archive-build rule. -/
  | package (var env base type : String) (sourceVars locationVars : List String)
  /-- `env.Append(PACKAGESUFFIX="type")` (package_target.py:178). -/
  | appendSuffix (env type : String)
  /-- `env.Depends(var, env.Value(paths))` (package_target.py:180-181). -/
  | dependsValue (env var : String) (paths : List String)
  deriving DecidableEq, Repr

/-- The per-target emission context. Modelled from the spec: `_env_name`,
`_var_name` and `_target_file_path` are base-class naming helpers outside
src/ ("unique, namespaced build-engine variable" names, "deterministic,
index-based"), and the registry (`blade.get_build_targets` plus
`_get_target_var`) is the external collaborator
`lookup(key) -> handle`, `outputVariable(kind) -> Variable | absent`. -/
structure EmitCtx where
  /-- `self.fullname`. -/
  fullname : String
  /-- `self._env_name()`. -/
  env_name : String
  /-- `self._var_name()` with no argument: the archive rule's variable. -/
  main_var : String
  /-- `self._var_name(suffix)`: the namespaced variable for a suffix. -/
  var_name : String → String
  /-- `self._target_file_path()`. -/
  target_file_path : String
  /-- `self.blade.get_build_targets()[key]._get_target_var(kind)`, with
  `none` at the outer level for a `KeyError` and `none` at the inner level
  when the target has no output variable of that kind (the falsy check
  `if not target_var`). -/
  registry : String → Option (String → Option String)

/-- `PackageTarget._generate_source_rules` (package_target.py:129-137),
started at index `i`: returns the `source_vars`, the `package_path_list`
contributions and the emitted rules, in loop order. -/
def generate_source_rules (ctx : EmitCtx) (sources_dir : String) :
    Nat → List (String × String) → List String × List String × List SRule
  | _, [] => ([], [], [])
  | i, (src, d) :: rest =>
      let dst := osJoin sources_dir d
      let var := ctx.var_name ("source__" ++ toString i)
      let (vs, ps, rs) := generate_source_rules ctx sources_dir (i + 1) rest
      (var :: vs, dst :: ps, .packageSource var ctx.env_name dst src :: rs)

/-- The warning text of package_target.py:148-149. -/
def location_warning (fullname key kind : String) : String :=
  fullname ++ ": Location " ++ key ++ " " ++ kind ++ " is missing. Ignored."

/-- `PackageTarget._generate_location_reference_rules`
(package_target.py:139-160), started at index `i`: returns the
`location_vars`, the `package_path_list` contributions, the emitted rules
and the warnings, or the uncaught `KeyError` when a key is not in the
registry. A missing output variable warns and skips; a non-empty
destination is staged under `sources_dir`; an empty destination feeds the
target's variable directly. -/
def generate_location_reference_rules (ctx : EmitCtx) (sources_dir : String) :
    Nat → List (String × String × String) →
    Except String (List String × List String × List SRule × List String)
  | _, [] => .ok ([], [], [], [])
  | i, (key, kind, d) :: rest =>
      match ctx.registry key with
      | none => .error ("KeyError: " ++ key)
      | some target_var_of =>
          match generate_location_reference_rules ctx sources_dir (i + 1) rest with
          | .error e => .error e
          | .ok (vs, ps, rs, ws) =>
              match target_var_of kind with
              | none => .ok (vs, ps, rs, location_warning ctx.fullname key kind :: ws)
              | some target_var =>
                  if d ≠ "" then
                    let dst := osJoin sources_dir d
                    let var := ctx.var_name ("location__" ++ toString i)
                    .ok (var :: vs, dst :: ps,
                         .packageSourceVar var ctx.env_name dst target_var :: rs, ws)
                  else .ok (target_var :: vs, ps, rs, ws)

/-- `PackageTarget.scons_rules` (package_target.py:162-181): stage the
filesystem sources, then the location references, emit the single
`Package` rule over both variable lists, set the package suffix, and — if
anything was staged — the value dependency on the staged path list.
Returns the emitted rules in order and the warnings. -/
def scons_rules (ctx : EmitCtx) (type : String)
    (sources : List (String × String))
    (locations : List (String × String × String)) :
    Except String (List SRule × List String) :=
  let sources_dir := ctx.target_file_path ++ ".sources"
  let sr := generate_source_rules ctx sources_dir 0 sources
  let source_vars := sr.1
  let paths1 := sr.2.1
  let rules1 := sr.2.2
  match generate_location_reference_rules ctx sources_dir 0 locations with
  | .error e => .error e
  | .ok (location_vars, paths2, rules2, warns) =>
      let package_path_list := paths1 ++ paths2
      .ok (rules1 ++ rules2 ++
           [.package ctx.main_var ctx.env_name ctx.target_file_path type
              source_vars location_vars,
            .appendSuffix ctx.env_name type] ++
           (if package_path_list = [] then []
            else [.dependsValue ctx.env_name ctx.main_var package_path_list]),
           warns)

/-- Extract the archive-build rule's content: its variable and its ordered
input-variable lists. -/
def packageInputs : SRule → Option (String × List String × List String)
  | .package var _ _ _ sv lv => some (var, sv, lv)
  | _ => none

/-- Extract a value-dependency rule's content: the rule variable it guards
and the path list it carries. -/
def dependsOf : SRule → Option (String × List String)
  | .dependsValue _ var ps => some (var, ps)
  | _ => none

/-- A concrete location-reference matcher: recognises exactly the string
`"$(location //a:b)"` as a reference to target key `//a:b` with no
output-kind group. -/
def cexLocMatch (s : String) : Option (String × Option String) :=
  if s = "$(location //a:b)" then some ("//a:b", none) else none

/-- A sequence of calls to `_add_location_reference`, one per matched
location reference, each carrying its match groups and destination. -/
def add_location_references (unify : String → String) :
    PState → List (String × Option String × String) → PState
  | st, [] => st
  | st, (k, kd, d) :: rest =>
      add_location_references unify (add_location_reference unify st k kd d) rest

/-- A concrete emission context for closed runs: plain names, an empty
registry (unused when `locations` is empty). -/
def cexCtx : EmitCtx :=
  { fullname := "p:t", env_name := "env", main_var := "v",
    var_name := fun s => "v_" ++ s, target_file_path := "T",
    registry := fun _ => none }

/-- The per-target staging directory `self._target_file_path() + '.sources'`
(package_target.py:169). -/
def staging_dir (ctx : EmitCtx) : String := ctx.target_file_path ++ ".sources"

/-- A concrete output-variable table: an output of kind `so` only. -/
def cexTvof : String → Option String :=
  fun kind => if kind = "so" then some "tvar" else none

/-- A concrete emission context whose registry holds the single target
`//a:b` with `cexTvof` as its output-variable table. -/
def cexCtx2 : EmitCtx :=
  { fullname := "p:t", env_name := "env", main_var := "v",
    var_name := fun s => "v_" ++ s, target_file_path := "T",
    registry := fun k => if k = "//a:b" then some cexTvof else none }

/-- The ordered input variables the archive rule takes from the staged
filesystem sources: one per `sources` entry, named by its index. -/
def sourceVarsSpec (ctx : EmitCtx) (i : Nat)
    (sources : List (String × String)) : List String :=
  (List.enumFrom i sources).map (fun p => ctx.var_name ("source__" ++ toString p.1))

/-- The staged destination paths contributed by the filesystem sources. -/
def sourcePathsSpec (sd : String) (sources : List (String × String)) : List String :=
  sources.map (fun s => osJoin sd s.2)

/-- The ordered input variables the archive rule takes from the location
references: per entry, in order — nothing when the output kind is
missing, the staged variable named by the entry's index when a
destination is given, the target's own output variable otherwise. -/
def locationVarsSpec (ctx : EmitCtx) (i : Nat)
    (locations : List (String × String × String)) : List String :=
  (List.enumFrom i locations).filterMap (fun p =>
    (ctx.registry p.2.1).bind fun tvof =>
      (tvof p.2.2.1).map fun tv =>
        if p.2.2.2 ≠ "" then ctx.var_name ("location__" ++ toString p.1) else tv)

/-- The staged destination paths contributed by location references with a
non-empty destination and a present output variable. -/
def locationPathsSpec (ctx : EmitCtx) (sd : String) (i : Nat)
    (locations : List (String × String × String)) : List String :=
  (List.enumFrom i locations).filterMap (fun p =>
    (ctx.registry p.2.1).bind fun tvof =>
      (tvof p.2.2.1).bind fun _ =>
        if p.2.2.2 ≠ "" then some (osJoin sd p.2.2.2) else none)

/-- The warnings emitted by `_generate_location_reference_rules`: one per
entry whose target exists but has no output variable of the kind. -/
def locationWarnsSpec (ctx : EmitCtx)
    (locations : List (String × String × String)) : List String :=
  locations.filterMap (fun l =>
    (ctx.registry l.1).bind fun tvof =>
      match tvof l.2.1 with
      | none => some (location_warning ctx.fullname l.1 l.2.1)
      | some _ => none)

/-! ### Theorems -/

/-- Any occurrence of `..` in either half makes `_get_source_path` exit
with the formatted configuration error. -/
theorem get_source_path_dotdot_error (fullname pkg_dir src dst : String)
    (h : hasSubstr dotdot src.data = true ∨ hasSubstr dotdot dst.data = true) :
    get_source_path fullname pkg_dir src dst =
      .error (fullname ++ ": Invalid src (" ++ src ++ ", " ++ dst ++
              "). Relative path is not allowed.") := by
  unfold get_source_path
  rcases h with h | h <;> rw [h] <;> simp

/-- The error of `_get_source_path` propagates through
`_add_package_source` leaving `sources` unrecorded. -/
theorem add_package_source_dotdot_error (root : FsNode)
    (fullname pkg_dir : String) (sources : List (String × String))
    (src dst : String)
    (h : hasSubstr dotdot src.data = true ∨ hasSubstr dotdot dst.data = true) :
    add_package_source root fullname pkg_dir sources src dst =
      .error (fullname ++ ": Invalid src (" ++ src ++ ", " ++ dst ++
              "). Relative path is not allowed.") := by
  unfold add_package_source
  rw [get_source_path_dotdot_error fullname pkg_dir src dst h]

/-- **C6** For every input `(src, '')` with an empty destination that passes
the traversal check, `_get_source_path` returns a destination equal to
`src` after workspace-root-marker stripping, and resolving the same input
twice yields the same `(path, destination)` pair both times. -/
theorem c6_idempotent_path_defaulting (fullname pkg_dir src : String)
    (h : hasSubstr dotdot src.data = false) :
    (∃ path, get_source_path fullname pkg_dir src "" =
       .ok (path, if starts_with_root_marker src then strDrop2 src else src)) ∧
    (∀ r₁ r₂, get_source_path fullname pkg_dir src "" = .ok r₁ →
       get_source_path fullname pkg_dir src "" = .ok r₂ → r₁ = r₂) := by
  have h0 : hasSubstr dotdot ("" : String).data = false := by decide
  refine ⟨?_, fun r₁ r₂ e₁ e₂ => by rw [e₁] at e₂; exact (Except.ok.injEq .. ▸ e₂)⟩
  unfold get_source_path
  rw [h, h0]
  cases hm : starts_with_root_marker src with
  | true => exact ⟨strDrop2 src, by simp⟩
  | false => exact ⟨source_file_path pkg_dir src, by simp⟩

/-- Witness for `c6_idempotent_path_defaulting` at `src = "//a/b.txt"`. -/
theorem c6_idempotent_path_defaulting_witness :
    (∃ path, get_source_path "p" "pkg" "//a/b.txt" "" =
       .ok (path, if starts_with_root_marker "//a/b.txt" then strDrop2 "//a/b.txt"
                  else "//a/b.txt")) ∧
    (∀ r₁ r₂, get_source_path "p" "pkg" "//a/b.txt" "" = .ok r₁ →
       get_source_path "p" "pkg" "//a/b.txt" "" = .ok r₂ → r₁ = r₂) :=
  c6_idempotent_path_defaulting "p" "pkg" "//a/b.txt" (by decide)

/-- **C7** For every filesystem source `src` that passes the traversal
check: if `src` begins with the two-character workspace-root marker `//`,
`_get_source_path` returns the remainder after stripping the marker as
the path; otherwise it returns `src` resolved relative to the declaring
package's directory. -/
theorem c7_root_marker_resolution (fullname pkg_dir src dst : String)
    (h1 : hasSubstr dotdot src.data = false)
    (h2 : hasSubstr dotdot dst.data = false) :
    ∃ d, get_source_path fullname pkg_dir src dst =
      .ok (if starts_with_root_marker src then strDrop2 src
           else source_file_path pkg_dir src, d) := by
  unfold get_source_path
  rw [h1, h2]
  cases hm : starts_with_root_marker src with
  | true => exact ⟨if dst = "" then strDrop2 src else dst, by simp⟩
  | false => exact ⟨if dst = "" then src else dst, by simp⟩

/-- Witness for `c7_root_marker_resolution` at `("//a/b.txt", "out")`. -/
theorem c7_root_marker_resolution_witness :
    ∃ d, get_source_path "p" "pkg" "//a/b.txt" "out" =
      .ok (if starts_with_root_marker "//a/b.txt" then strDrop2 "//a/b.txt"
           else source_file_path "pkg" "//a/b.txt", d) :=
  c7_root_marker_resolution "p" "pkg" "//a/b.txt" "out" (by decide) (by decide)

/-- **C10** The traversal check in `_get_source_path` is a substring test:
any `(src, dst)` in which the two-character sequence `..` occurs anywhere
in `src` or `dst` — including inside a single file name such as
`a..b.txt` — triggers the fatal configuration error, and is never added
to `data['sources']` (`_add_package_source` propagates the error without
touching `sources`). -/
theorem c10_substring_traversal_check (root : FsNode)
    (fullname pkg_dir : String) (sources : List (String × String))
    (src dst : String)
    (h : hasSubstr dotdot src.data = true ∨ hasSubstr dotdot dst.data = true) :
    get_source_path fullname pkg_dir src dst =
      .error (fullname ++ ": Invalid src (" ++ src ++ ", " ++ dst ++
              "). Relative path is not allowed.") ∧
    add_package_source root fullname pkg_dir sources src dst =
      .error (fullname ++ ": Invalid src (" ++ src ++ ", " ++ dst ++
              "). Relative path is not allowed.") :=
  ⟨get_source_path_dotdot_error fullname pkg_dir src dst h,
   add_package_source_dotdot_error root fullname pkg_dir sources src dst h⟩

/-- Witness for `c10_substring_traversal_check` at the non-segment
occurrence `src = "a..b.txt"`. -/
theorem c10_substring_traversal_check_witness :
    get_source_path "p" "pkg" "a..b.txt" "" =
      .error ("p" ++ ": Invalid src (" ++ "a..b.txt" ++ ", " ++ "" ++
              "). Relative path is not allowed.") ∧
    add_package_source .file "p" "pkg" [] "a..b.txt" "" =
      .error ("p" ++ ": Invalid src (" ++ "a..b.txt" ++ ", " ++ "" ++
              "). Relative path is not allowed.") :=
  c10_substring_traversal_check .file "p" "pkg" [] "a..b.txt" ""
    (Or.inl (by decide))

/-- **C9** For every resolved filesystem source `(path, destination)` that
passes the traversal check but where `path` names neither a regular file
nor a directory (it does not resolve in the filesystem),
`_add_package_source` appends no entry to `data['sources']` and raises no
error — the missing source is silently omitted (`os.walk` yields nothing
for a nonexistent path). -/
theorem c9_missing_source_silently_omitted (root : FsNode)
    (fullname pkg_dir src dst path d : String)
    (sources : List (String × String))
    (hres : get_source_path fullname pkg_dir src dst = .ok (path, d))
    (habsent : fs_lookup root (segsStr path) = none) :
    add_package_source root fullname pkg_dir sources src dst = .ok sources := by
  have hfile : os_isfile root path = false := by
    unfold os_isfile; rw [habsent]
  have hwalk : os_walk root path = [] := by
    unfold os_walk; rw [habsent]
  unfold add_package_source
  rw [hres]
  simp [hfile, hwalk]

/-- Witness for `c9_missing_source_silently_omitted`: an empty root
directory and the source `"missing.txt"`. -/
theorem c9_missing_source_silently_omitted_witness :
    add_package_source (.dir .nil) "p" "" [("x", "y")] "missing.txt" "" =
      .ok [("x", "y")] :=
  c9_missing_source_silently_omitted (.dir .nil) "p" "" "missing.txt" ""
    "missing.txt" "missing.txt" [("x", "y")] (by rfl) (by rfl)

/-- **C1 is false on the code**: the traversal check lives only in
`_get_source_path`, which the location-reference branch never calls. A
source specification whose destination half contains `..` but whose
source half matches the location pattern is processed to completion, and
the recorded `data['locations']` entry carries the traversal segment
`../evil` in its destination half. -/
theorem c1_counterexample :
    process_srcs cexLocMatch id (.dir .nil) "p" "pkg" (initState [] [])
        [.pair ("$(location //a:b)", "../evil")] =
      .ok { sources := [], locations := [("//a:b", "", "../evil")],
            deps := ["//a:b"], expanded_deps := ["//a:b"] } ∧
    hasSubstr dotdot ("../evil" : String).data = true := by
  exact ⟨by rfl, by decide⟩

/-- **C1 (amended)** For every source specification `(src, dst)` handled as
a filesystem source — i.e. one not matching the location-reference
pattern — if `src` or `dst` contains a `..` substring, processing of the
declaration halts with a fatal configuration error before any entry is
recorded. Entries added via the location-reference branch receive no
traversal check, so only `data['sources']` is protected. -/
theorem c1_amended_traversal_rejection
    (locMatch : String → Option (String × Option String))
    (unify : String → String) (root : FsNode) (fullname pkg_dir : String)
    (st : PState) (src dst : String) (rest : List SrcSpec)
    (hfs : locMatch src = none)
    (h : hasSubstr dotdot src.data = true ∨ hasSubstr dotdot dst.data = true) :
    process_srcs locMatch unify root fullname pkg_dir st
        (.pair (src, dst) :: rest) =
      .error (fullname ++ ": Invalid src (" ++ src ++ ", " ++ dst ++
              "). Relative path is not allowed.") := by
  have hap := add_package_source_dotdot_error root fullname pkg_dir st.sources src dst h
  unfold process_srcs process_one process_one.process_pair
  simp [hfs, hap]

/-- Witness for `c1_amended_traversal_rejection` at `("../up.txt", "")`. -/
theorem c1_amended_traversal_rejection_witness :
    process_srcs cexLocMatch id (.dir .nil) "p" "pkg" (initState [] [])
        [.pair ("../up.txt", "")] =
      .error ("p" ++ ": Invalid src (" ++ "../up.txt" ++ ", " ++ "" ++
              "). Relative path is not allowed.") :=
  c1_amended_traversal_rejection cexLocMatch id (.dir .nil) "p" "pkg"
    (initState [] []) "../up.txt" "" [] (by decide) (Or.inl (by decide))

/-- One `_add_location_reference` call keeps a key's occurrence count in
`deps` at most one. -/
theorem count_deps_add_location_reference (unify : String → String)
    (st : PState) (k : String) (kd : Option String) (d key : String)
    (h : st.deps.count key ≤ 1) :
    (add_location_reference unify st k kd d).deps.count key ≤ 1 := by
  unfold add_location_reference
  by_cases hm : unify k ∈ st.deps
  · simpa [hm] using h
  · simp only [hm, if_false]
    rw [List.count_append]
    by_cases he : unify k = key
    · have : st.deps.count key = 0 := by
        rw [List.count_eq_zero]
        rw [he] at hm
        exact hm
      simp [this, he]
    · simp [List.count_singleton, he, h]

/-- One `_add_location_reference` call keeps a key's occurrence count in
`expanded_deps` at most one. -/
theorem count_expanded_add_location_reference (unify : String → String)
    (st : PState) (k : String) (kd : Option String) (d key : String)
    (h : st.expanded_deps.count key ≤ 1) :
    (add_location_reference unify st k kd d).expanded_deps.count key ≤ 1 := by
  unfold add_location_reference
  by_cases hm : unify k ∈ st.expanded_deps
  · simpa [hm] using h
  · simp only [hm, if_false]
    rw [List.count_append]
    by_cases he : unify k = key
    · have : st.expanded_deps.count key = 0 := by
        rw [List.count_eq_zero]
        rw [he] at hm
        exact hm
      simp [this, he]
    · simp [List.count_singleton, he, h]

/-- **C2** For every target state and every sequence of location references
processed by `_add_location_reference`, each unified target key appears at
most once in the target's `deps` list and at most once in its
`expanded_deps` list — provided it did so before the sequence (the
freshly constructed lists are required by the spec to be duplicate-free
sets) — regardless of how many location references (with the same or
different output kinds) name that key. -/
theorem c2_dependency_idempotent_insertion (unify : String → String)
    (st : PState) (refs : List (String × Option String × String)) (key : String)
    (h1 : st.deps.count key ≤ 1) (h2 : st.expanded_deps.count key ≤ 1) :
    (add_location_references unify st refs).deps.count key ≤ 1 ∧
    (add_location_references unify st refs).expanded_deps.count key ≤ 1 := by
  induction refs generalizing st with
  | nil => exact ⟨h1, h2⟩
  | cons r rest ih =>
      obtain ⟨k, kd, d⟩ := r
      exact ih (add_location_reference unify st k kd d)
        (count_deps_add_location_reference unify st k kd d key h1)
        (count_expanded_add_location_reference unify st k kd d key h2)

/-- Witness for `c2_dependency_idempotent_insertion`: two location
references to `//a:b` with distinct output kinds leave the key exactly
once in each dependency list. -/
theorem c2_dependency_idempotent_insertion_witness :
    (add_location_references id (initState [] [])
        [("//a:b", some "jar", "x"), ("//a:b", some "so", "y")]).deps.count
        "//a:b" ≤ 1 ∧
    (add_location_references id (initState [] [])
        [("//a:b", some "jar", "x"), ("//a:b", some "so", "y")]).expanded_deps.count
        "//a:b" ≤ 1 :=
  c2_dependency_idempotent_insertion id (initState [] [])
    [("//a:b", some "jar", "x"), ("//a:b", some "so", "y")] "//a:b"
    (by decide) (by decide)

/-- Characterisation of `_generate_source_rules`: the variables are one
per entry, named by index; the staged paths are the destinations joined
under the staging directory; every emitted rule is a staging rule. -/
theorem generate_source_rules_spec (ctx : EmitCtx) (sd : String) (i : Nat)
    (l : List (String × String)) :
    (generate_source_rules ctx sd i l).1 = sourceVarsSpec ctx i l ∧
    (generate_source_rules ctx sd i l).2.1 = sourcePathsSpec sd l ∧
    ∀ r ∈ (generate_source_rules ctx sd i l).2.2,
      ∃ v d s, r = SRule.packageSource v ctx.env_name d s := by
  induction l generalizing i with
  | nil =>
      refine ⟨rfl, rfl, ?_⟩
      intro r hr
      cases hr
  | cons a rest ih =>
      obtain ⟨h1, h2, h3⟩ := ih (i + 1)
      refine ⟨?_, ?_, ?_⟩
      · simpa [generate_source_rules, sourceVarsSpec, List.enumFrom]
          using congrArg (ctx.var_name ("source__" ++ toString i) :: ·) h1
      · simpa [generate_source_rules, sourcePathsSpec]
          using congrArg (osJoin sd a.2 :: ·) h2
      · intro r hr
        simp only [generate_source_rules] at hr
        rcases List.mem_cons.mp hr with h | h
        · exact ⟨_, _, _, h⟩
        · exact h3 r h

/-- Characterisation of `_generate_location_reference_rules` when every
referenced key is in the registry: the variables, staged paths and
warnings are as specified entrywise, and every emitted rule is a
variable-staging rule. -/
theorem generate_location_reference_rules_spec (ctx : EmitCtx) (sd : String)
    (i : Nat) (locs : List (String × String × String))
    (hkeys : ∀ l ∈ locs, (ctx.registry l.1).isSome) :
    ∃ rules,
      generate_location_reference_rules ctx sd i locs =
        .ok (locationVarsSpec ctx i locs, locationPathsSpec ctx sd i locs,
             rules, locationWarnsSpec ctx locs) ∧
      ∀ r ∈ rules, ∃ v d tv, r = SRule.packageSourceVar v ctx.env_name d tv := by
  induction locs generalizing i with
  | nil => exact ⟨[], rfl, by intro r hr; cases hr⟩
  | cons a rest ih =>
      obtain ⟨key, kind, d⟩ := a
      obtain ⟨tvof, htvof⟩ := Option.isSome_iff_exists.mp
        (hkeys (key, kind, d) (List.mem_cons_self _ _))
      obtain ⟨rules, hrec, hall⟩ :=
        ih (i + 1) (fun l hl => hkeys l (List.mem_cons_of_mem _ hl))
      cases htv : tvof kind with
      | none =>
          refine ⟨rules, ?_, hall⟩
          simp [generate_location_reference_rules, htvof, hrec, htv,
                locationVarsSpec, locationPathsSpec, locationWarnsSpec,
                List.enumFrom]
      | some tv =>
          by_cases hd : d = ""
          · refine ⟨rules, ?_, hall⟩
            simp [generate_location_reference_rules, htvof, hrec, htv, hd,
                  locationVarsSpec, locationPathsSpec, locationWarnsSpec,
                  List.enumFrom]
          · refine ⟨SRule.packageSourceVar
                (ctx.var_name ("location__" ++ toString i)) ctx.env_name
                (osJoin sd d) tv :: rules, ?_, ?_⟩
            · simp [generate_location_reference_rules, htvof, hrec, htv, hd,
                    locationVarsSpec, locationPathsSpec, locationWarnsSpec,
                    List.enumFrom]
            · intro r hr
              rcases List.mem_cons.mp hr with h | h
              · exact ⟨_, _, _, h⟩
              · exact hall r h

/-- Characterisation of `scons_rules` when every referenced key is in the
registry: it succeeds, emits the specified warnings, exactly one archive
rule — whose input lists are the source variables followed by the
location variables — and the value dependency exactly when some path was
staged. -/
theorem scons_rules_spec (ctx : EmitCtx) (type : String)
    (sources : List (String × String))
    (locations : List (String × String × String))
    (hkeys : ∀ l ∈ locations, (ctx.registry l.1).isSome) :
    ∃ rules,
      scons_rules ctx type sources locations =
        .ok (rules, locationWarnsSpec ctx locations) ∧
      rules.filterMap packageInputs =
        [(ctx.main_var, sourceVarsSpec ctx 0 sources,
          locationVarsSpec ctx 0 locations)] ∧
      rules.filterMap dependsOf =
        (if sourcePathsSpec (staging_dir ctx) sources ++
            locationPathsSpec ctx (staging_dir ctx) 0 locations = []
         then []
         else [(ctx.main_var,
                sourcePathsSpec (staging_dir ctx) sources ++
                locationPathsSpec ctx (staging_dir ctx) 0 locations)]) := by
  simp only [staging_dir]
  obtain ⟨h1, h2, h3⟩ :=
    generate_source_rules_spec ctx (ctx.target_file_path ++ ".sources") 0 sources
  obtain ⟨rules2, hrec, hall⟩ :=
    generate_location_reference_rules_spec ctx (ctx.target_file_path ++ ".sources")
      0 locations hkeys
  have hpkg1 : ∀ r ∈ (generate_source_rules ctx
      (ctx.target_file_path ++ ".sources") 0 sources).2.2,
      packageInputs r = none := by
    intro r hr
    obtain ⟨v, d, s, he⟩ := h3 r hr
    rw [he]; rfl
  have hdep1 : ∀ r ∈ (generate_source_rules ctx
      (ctx.target_file_path ++ ".sources") 0 sources).2.2,
      dependsOf r = none := by
    intro r hr
    obtain ⟨v, d, s, he⟩ := h3 r hr
    rw [he]; rfl
  have hpkg2 : ∀ r ∈ rules2, packageInputs r = none := by
    intro r hr
    obtain ⟨v, d, tv, he⟩ := hall r hr
    rw [he]; rfl
  have hdep2 : ∀ r ∈ rules2, dependsOf r = none := by
    intro r hr
    obtain ⟨v, d, tv, he⟩ := hall r hr
    rw [he]; rfl
  refine ⟨(generate_source_rules ctx (ctx.target_file_path ++ ".sources")
        0 sources).2.2 ++ rules2 ++
      [SRule.package ctx.main_var ctx.env_name ctx.target_file_path type
         (generate_source_rules ctx (ctx.target_file_path ++ ".sources")
           0 sources).1
         (locationVarsSpec ctx 0 locations),
       SRule.appendSuffix ctx.env_name type] ++
      (if (generate_source_rules ctx (ctx.target_file_path ++ ".sources")
             0 sources).2.1 ++
          locationPathsSpec ctx (ctx.target_file_path ++ ".sources")
            0 locations = [] then []
       else [SRule.dependsValue ctx.env_name ctx.main_var
         ((generate_source_rules ctx (ctx.target_file_path ++ ".sources")
             0 sources).2.1 ++
          locationPathsSpec ctx (ctx.target_file_path ++ ".sources")
            0 locations)]), ?_, ?_, ?_⟩
  · simp only [scons_rules]
    rw [hrec]
  · rw [List.filterMap_append, List.filterMap_append, List.filterMap_append,
        List.filterMap_eq_nil_iff.mpr hpkg1, List.filterMap_eq_nil_iff.mpr hpkg2]
    rw [h2]
    by_cases hp : sourcePathsSpec (ctx.target_file_path ++ ".sources") sources ++
        locationPathsSpec ctx (ctx.target_file_path ++ ".sources")
          0 locations = [] <;>
      simp [hp, packageInputs, h1]
  · rw [List.filterMap_append, List.filterMap_append, List.filterMap_append,
        List.filterMap_eq_nil_iff.mpr hdep1, List.filterMap_eq_nil_iff.mpr hdep2]
    rw [h2]
    by_cases hp : sourcePathsSpec (ctx.target_file_path ++ ".sources") sources ++
        locationPathsSpec ctx (ctx.target_file_path ++ ".sources")
          0 locations = [] <;>
      simp [hp, dependsOf]

/-- A `filterMap` keeps at most the elements not satisfying a predicate
that forces the function to `none`. -/
theorem length_filterMap_add_countP_le {α β : Type} (f : α → Option β)
    (p : α → Bool) (l : List α) (h : ∀ a, p a = true → f a = none) :
    (l.filterMap f).length + l.countP p ≤ l.length := by
  induction l with
  | nil => simp
  | cons a rest ih =>
      by_cases hp : p a = true
      · simp [List.filterMap_cons, h a hp, List.countP_cons, hp]
        omega
      · rw [Bool.not_eq_true] at hp
        cases hf : f a with
        | none =>
            simp [List.filterMap_cons, hf, List.countP_cons, hp]
            omega
        | some b =>
            simp [List.filterMap_cons, hf, List.countP_cons, hp]
            omega

/-- Counting pairs by their second component over `enumFrom` counts the
underlying elements. -/
theorem countP_enumFrom_snd {α : Type} [BEq α] (e : α) (l : List α) :
    ∀ i, (List.enumFrom i l).countP (fun q => q.2 == e) = l.count e := by
  induction l with
  | nil => intro i; rfl
  | cons a rest ih =>
      intro i
      simp [List.enumFrom, List.countP_cons, List.count_cons, ih]

/-- **C3** Rule emission (`scons_rules`) emits exactly one archive-build
rule whose input-variable list is, in order: one variable per entry of
`data['sources']` in that list's order (each named by its index), followed
by one variable per non-skipped entry of `data['locations']` in that
list's order; and given the same `sources`/`locations` content and the
same registry answers, two runs produce identical ordered input-variable
lists. -/
theorem c3_single_archive_rule_ordered_inputs (ctx : EmitCtx) (type : String)
    (sources : List (String × String))
    (locations : List (String × String × String))
    (hkeys : ∀ l ∈ locations, (ctx.registry l.1).isSome) :
    ∃ rules warns,
      scons_rules ctx type sources locations = .ok (rules, warns) ∧
      rules.filterMap packageInputs =
        [(ctx.main_var, sourceVarsSpec ctx 0 sources,
          locationVarsSpec ctx 0 locations)] ∧
      ∀ rules2 warns2,
        scons_rules ctx type sources locations = .ok (rules2, warns2) →
        rules2.filterMap packageInputs = rules.filterMap packageInputs := by
  obtain ⟨rules, hok, hpkg, hdep⟩ := scons_rules_spec ctx type sources locations hkeys
  refine ⟨rules, _, hok, hpkg, ?_⟩
  intro rules2 warns2 h2
  rw [hok] at h2
  obtain ⟨e1, e2⟩ := Prod.mk.inj (Except.ok.inj h2)
  rw [← e1]

/-- Witness for `c3_single_archive_rule_ordered_inputs`: one filesystem
source and one directly-fed location reference. -/
theorem c3_single_archive_rule_ordered_inputs_witness :
    ∃ rules warns,
      scons_rules cexCtx2 "tar" [("a", "out.txt")] [("//a:b", "so", "")] =
        .ok (rules, warns) ∧
      rules.filterMap packageInputs =
        [(cexCtx2.main_var, sourceVarsSpec cexCtx2 0 [("a", "out.txt")],
          locationVarsSpec cexCtx2 0 [("//a:b", "so", "")])] ∧
      ∀ rules2 warns2,
        scons_rules cexCtx2 "tar" [("a", "out.txt")] [("//a:b", "so", "")] =
          .ok (rules2, warns2) →
        rules2.filterMap packageInputs = rules.filterMap packageInputs :=
  c3_single_archive_rule_ordered_inputs cexCtx2 "tar" [("a", "out.txt")]
    [("//a:b", "so", "")] (by decide)

/-- **C5** During rule emission, every location entry `(key, kind, dst)`
whose referenced target exists in the registry but has no output variable
for `kind` produces the non-fatal warning naming the target, key and
kind; the entry contributes no input variable (the location variables
number at most the other entries); and the single archive-build rule is
still emitted with all remaining inputs — in particular all staged
variables of the filesystem sources. -/
theorem c5_missing_output_tolerance (ctx : EmitCtx) (type : String)
    (sources : List (String × String))
    (locations : List (String × String × String))
    (key kind d : String) (tvof : String → Option String)
    (hkeys : ∀ l ∈ locations, (ctx.registry l.1).isSome)
    (hmem : (key, kind, d) ∈ locations)
    (hreg : ctx.registry key = some tvof) (hmiss : tvof kind = none) :
    ∃ rules warns,
      scons_rules ctx type sources locations = .ok (rules, warns) ∧
      location_warning ctx.fullname key kind ∈ warns ∧
      rules.filterMap packageInputs =
        [(ctx.main_var, sourceVarsSpec ctx 0 sources,
          locationVarsSpec ctx 0 locations)] ∧
      (locationVarsSpec ctx 0 locations).length +
          locations.count (key, kind, d) ≤ locations.length := by
  obtain ⟨rules, hok, hpkg, hdep⟩ := scons_rules_spec ctx type sources locations hkeys
  refine ⟨rules, _, hok, ?_, hpkg, ?_⟩
  · refine List.mem_filterMap.mpr ⟨(key, kind, d), hmem, ?_⟩
    simp [hreg, hmiss]
  · have hnone : ∀ q : Nat × String × String × String,
        (fun q : Nat × String × String × String =>
          q.2 == (key, kind, d)) q = true →
        ((ctx.registry q.2.1).bind fun tvof2 =>
          (tvof2 q.2.2.1).map fun tv =>
            if q.2.2.2 ≠ "" then ctx.var_name ("location__" ++ toString q.1)
            else tv) = none := by
      intro q hq
      have : q.2 = (key, kind, d) := by simpa using hq
      rw [this]
      simp [hreg, hmiss]
    have hle := length_filterMap_add_countP_le _ _ (List.enumFrom 0 locations) hnone
    rw [countP_enumFrom_snd (key, kind, d) locations 0,
        List.enumFrom_length] at hle
    exact hle

/-- Witness for `c5_missing_output_tolerance`: `//a:b` has no `header`
output, so the reference is skipped with a warning while `a`'s staged
variable still feeds the archive rule. -/
theorem c5_missing_output_tolerance_witness :
    ∃ rules warns,
      scons_rules cexCtx2 "tar" [("a", "out.txt")] [("//a:b", "header", "x")] =
        .ok (rules, warns) ∧
      location_warning cexCtx2.fullname "//a:b" "header" ∈ warns ∧
      rules.filterMap packageInputs =
        [(cexCtx2.main_var, sourceVarsSpec cexCtx2 0 [("a", "out.txt")],
          locationVarsSpec cexCtx2 0 [("//a:b", "header", "x")])] ∧
      (locationVarsSpec cexCtx2 0 [("//a:b", "header", "x")]).length +
          [("//a:b", "header", "x")].count ("//a:b", "header", "x") ≤
        [("//a:b", "header", "x")].length :=
  c5_missing_output_tolerance cexCtx2 "tar" [("a", "out.txt")]
    [("//a:b", "header", "x")] "//a:b" "header" "x" cexTvof
    (by decide) (by simp) (by rfl) (by rfl)

/-- **C8 is false on the code as stated**: the value carried by the
`Depends` rule is the ordered list of *staging-directory-joined* paths
`join(sources_dir, destination)`, not the bare archive-relative
destination paths. Packaging the single source `("a", "out.txt")` under
target file path `T` yields the value `["T.sources/out.txt"]`, which
differs from the archive-relative list `["out.txt"]`. -/
theorem c8_counterexample :
    (∃ rules, scons_rules cexCtx "tar" [("a", "out.txt")] [] = .ok (rules, []) ∧
       rules.filterMap dependsOf = [("v", ["T.sources/out.txt"])]) ∧
    (["T.sources/out.txt"] : List String) ≠ ["out.txt"] :=
  ⟨⟨_, rfl, rfl⟩, by decide⟩

/-- **C8 (amended)** During rule emission, if and only if at least one
input was staged (a filesystem source, or a location entry that resolved
with a non-empty destination), an explicit value-based dependency is
declared for the archive rule's variable, whose value is the ordered list
of the staged inputs' destination paths, each being the archive-relative
destination joined under the per-target staging directory
`<target file path>.sources`. -/
theorem c8_amended_value_dependency (ctx : EmitCtx) (type : String)
    (sources : List (String × String))
    (locations : List (String × String × String))
    (hkeys : ∀ l ∈ locations, (ctx.registry l.1).isSome) :
    ∃ rules warns,
      scons_rules ctx type sources locations = .ok (rules, warns) ∧
      ((∃ r ∈ rules, (dependsOf r).isSome) ↔
        sourcePathsSpec (staging_dir ctx) sources ++
          locationPathsSpec ctx (staging_dir ctx) 0 locations ≠ []) ∧
      rules.filterMap dependsOf =
        (if sourcePathsSpec (staging_dir ctx) sources ++
            locationPathsSpec ctx (staging_dir ctx) 0 locations = []
         then []
         else [(ctx.main_var,
                sourcePathsSpec (staging_dir ctx) sources ++
                locationPathsSpec ctx (staging_dir ctx) 0 locations)]) := by
  obtain ⟨rules, hok, hpkg, hdep⟩ := scons_rules_spec ctx type sources locations hkeys
  refine ⟨rules, _, hok, ?_, hdep⟩
  constructor
  · rintro ⟨r, hr, hs⟩ hnil
    rw [hnil] at hdep
    simp at hdep
    rw [hdep r hr] at hs
    cases hs
  · intro hne
    rw [if_neg hne] at hdep
    have : (ctx.main_var,
        sourcePathsSpec (staging_dir ctx) sources ++
        locationPathsSpec ctx (staging_dir ctx) 0 locations) ∈
        rules.filterMap dependsOf := by
      rw [hdep]
      exact List.mem_singleton.mpr rfl
    obtain ⟨r, hr, hs⟩ := List.mem_filterMap.mp this
    exact ⟨r, hr, by rw [hs]; rfl⟩

/-- Witness for `c8_amended_value_dependency`: one filesystem source and
one skipped location reference still stage one path. -/
theorem c8_amended_value_dependency_witness :
    ∃ rules warns,
      scons_rules cexCtx2 "tar" [("a", "out.txt")] [("//a:b", "header", "x")] =
        .ok (rules, warns) ∧
      ((∃ r ∈ rules, (dependsOf r).isSome) ↔
        sourcePathsSpec (staging_dir cexCtx2) [("a", "out.txt")] ++
          locationPathsSpec cexCtx2 (staging_dir cexCtx2) 0
            [("//a:b", "header", "x")] ≠ []) ∧
      rules.filterMap dependsOf =
        (if sourcePathsSpec (staging_dir cexCtx2) [("a", "out.txt")] ++
            locationPathsSpec cexCtx2 (staging_dir cexCtx2) 0
              [("//a:b", "header", "x")] = []
         then []
         else [(cexCtx2.main_var,
                sourcePathsSpec (staging_dir cexCtx2) [("a", "out.txt")] ++
                locationPathsSpec cexCtx2 (staging_dir cexCtx2) 0
                  [("//a:b", "header", "x")])]) :=
  c8_amended_value_dependency cexCtx2 "tar" [("a", "out.txt")]
    [("//a:b", "header", "x")] (by decide)

/-! ### Directory expansion (C4): walking a tree enumerates its files -/

/-- Splitting distributes over a separator: the accumulator flushes at the
separator exactly as it flushes at the end of the string. -/
theorem segsAux_append (n : List Char) :
    ∀ (p cur : List Char), segsAux cur (p ++ '/' :: n) = segsAux cur p ++ segsAux [] n := by
  intro p
  induction p with
  | nil =>
      intro cur
      cases cur with
      | nil => simp [segsAux]
      | cons c cs => simp [segsAux]
  | cons c cs ih =>
      intro cur
      by_cases hc : c = '/'
      · subst hc
        cases cur with
        | nil => simpa [segsAux] using ih []
        | cons d ds => simpa [segsAux] using ih []
      · simpa [segsAux, hc] using ih (c :: cur)

/-- A separator-free nonempty list is one whole segment (with the pending
accumulator prepended). -/
theorem segsAux_no_slash :
    ∀ (l cur : List Char), '/' ∉ l →
      segsAux cur l = if cur.reverse ++ l = [] then [] else [cur.reverse ++ l] := by
  intro l
  induction l with
  | nil =>
      intro cur _
      cases cur with
      | nil => simp [segsAux]
      | cons c cs => simp [segsAux]
  | cons c cs ih =>
      intro cur h
      have hc : c ≠ '/' := fun he => h (he ▸ List.mem_cons_self c cs)
      have hcs : '/' ∉ cs := fun hm => h (List.mem_cons_of_mem c hm)
      rw [segsAux, if_neg hc]
      rw [ih (c :: cur) hcs]
      simp

/-- A well-formed name is a single segment. -/
theorem segsChars_wfseg (n : List Char) (h1 : n ≠ []) (h2 : '/' ∉ n) :
    segsChars n = [n] := by
  rw [segsChars, segsAux_no_slash n [] h2]
  simp [h1]

/-- The last element of a separator-free list is not the separator. -/
theorem getLast?_ne_of_not_mem (c : Char) :
    ∀ (l : List Char), c ∉ l → l.getLast? ≠ some c := by
  intro l
  induction l with
  | nil => intro _; simp
  | cons a rest ih =>
      intro h
      cases rest with
      | nil =>
          have : a ≠ c := fun he => h (he ▸ List.mem_cons_self a [])
          simpa using fun he => this he
      | cons b bs =>
          rw [List.getLast?_cons_cons]
          exact ih (fun hm => h (List.mem_cons_of_mem a hm))

/-- On a nonempty left part with no trailing separator and a
separator-free right part, `posixpath.join` is plain concatenation with
one separator. -/
theorem osJoin_eq_append (q f : String) (hq1 : q.data ≠ [])
    (hq2 : q.data.getLast? ≠ some '/') (hf : '/' ∉ f.data) :
    osJoin q f = String.mk (q.data ++ '/' :: f.data) := by
  have hhead : ¬ f.data.head? = some '/' := by
    cases hd : f.data with
    | nil => simp
    | cons a as =>
        have : a ≠ '/' := fun he => hf (hd ▸ he ▸ List.mem_cons_self a as)
        simpa using fun he => this he
  rw [osJoin, if_neg hhead, if_neg hq1, if_neg hq2]

/-- Extending by no segments is the identity. -/
theorem joinRel_nil (base : String) : joinRel base [] = base := by
  cases base with
  | mk d => simp [joinRel]

/-- Extending by a first segment folds it into the base. -/
theorem joinRel_cons (base n : String) (rest : List String) :
    joinRel base (n :: rest) =
      joinRel (String.mk (base.data ++ '/' :: n.data)) rest := by
  simp [joinRel]

/-- An extension of a nonempty base is nonempty. -/
theorem joinRel_data_ne_nil (base : String) (rel : List String)
    (h : base.data ≠ []) : (joinRel base rel).data ≠ [] := by
  simp [joinRel, h]

/-- An extension by well-formed segments keeps the no-trailing-separator
invariant. -/
theorem joinRel_getLast? (rel : List String) :
    ∀ (base : String), base.data.getLast? ≠ some '/' →
      (∀ n ∈ rel, wfName n = true) →
      (joinRel base rel).data.getLast? ≠ some '/' := by
  induction rel with
  | nil =>
      intro base h _
      rw [joinRel_nil]
      exact h
  | cons n rest ih =>
      intro base h hwf
      have hn : n.data ≠ [] ∧ '/' ∉ n.data := by
        have := hwf n (List.mem_cons_self n rest)
        exact of_decide_eq_true this
      rw [joinRel_cons]
      refine ih (String.mk (base.data ++ '/' :: n.data)) ?_
        (fun m hm => hwf m (List.mem_cons_of_mem n hm))
      show (base.data ++ '/' :: n.data).getLast? ≠ some '/'
      rw [List.getLast?_append_of_ne_nil base.data (by simp)]
      have : ('/' :: n.data).getLast? = n.data.getLast? := by
        cases hd : n.data with
        | nil => exact absurd hd hn.1
        | cons a as => rw [List.getLast?_cons_cons]
      rw [this]
      exact getLast?_ne_of_not_mem '/' n.data hn.2

/-- The segments of an extension are the base's segments followed by the
extension's segments. -/
theorem segsChars_joinRel (rel : List String) :
    ∀ (base : String), (∀ n ∈ rel, wfName n = true) →
      segsChars (joinRel base rel).data =
        segsChars base.data ++ rel.map String.data := by
  induction rel with
  | nil =>
      intro base _
      rw [joinRel_nil]
      simp
  | cons n rest ih =>
      intro base hwf
      have hn : n.data ≠ [] ∧ '/' ∉ n.data := by
        have := hwf n (List.mem_cons_self n rest)
        exact of_decide_eq_true this
      rw [joinRel_cons,
          ih (String.mk (base.data ++ '/' :: n.data))
            (fun m hm => hwf m (List.mem_cons_of_mem n hm))]
      show segsChars (base.data ++ '/' :: n.data) ++ _ = _
      rw [show segsChars (base.data ++ '/' :: n.data) =
            segsAux [] (base.data ++ '/' :: n.data) from rfl,
          segsAux_append n.data base.data [],
          show segsAux [] n.data = segsChars n.data from rfl,
          segsChars_wfseg n.data hn.1 hn.2]
      simp [segsChars]

/-- The longest common prefix of a list and an extension of it is the
whole list. -/
theorem commonLen_append_self :
    ∀ (a b : List (List Char)), commonLen (a ++ b) a = a.length := by
  intro a
  induction a with
  | nil => intro b; cases b <;> rfl
  | cons x xs ih => intro b; simp [commonLen, ih b]

/-- `os.path.relpath` of an extension relative to its base recovers the
extension's segments. -/
theorem relpath_joinRel (base : String) (rel : List String) (hrel : rel ≠ [])
    (hwf : ∀ n ∈ rel, wfName n = true) :
    relpath (joinRel base rel) base = joinSegStr (rel.map String.data) := by
  rw [relpath, segsChars_joinRel rel base hwf]
  rw [commonLen_append_self]
  rw [Nat.sub_self, List.replicate_zero, List.nil_append, List.drop_left]
  rw [if_neg (by simpa using hrel)]

/-- Joining one more well-formed segment onto an extension extends the
segment list. -/
theorem osJoin_joinRel (base : String) (extra : List String) (f : String)
    (hb1 : base.data ≠ []) (hb2 : base.data.getLast? ≠ some '/')
    (hextra : ∀ n ∈ extra, wfName n = true) (hf : wfName f = true) :
    osJoin (joinRel base extra) f = joinRel base (extra ++ [f]) := by
  have hfd : f.data ≠ [] ∧ '/' ∉ f.data := of_decide_eq_true hf
  rw [osJoin_eq_append (joinRel base extra) f
        (joinRel_data_ne_nil base extra hb1)
        (joinRel_getLast? extra base hb2 hextra) hfd.2]
  simp [joinRel]

/-- Every file name of a well-formed entry list is well-formed. -/
theorem wfEntries_fileNames :
    (es : FsEntries) → wfEntries es = true → ∀ n ∈ fileNames es, wfName n = true
  | .nil, _ => by
      intro n hn
      simp [fileNames] at hn
  | .cons m c rest, h => by
      have h3 := h
      simp only [wfEntries, Bool.and_eq_true] at h3
      intro n hn
      simp only [fileNames] at hn
      rcases List.mem_append.mp hn with h2 | h2
      · cases hd : isDirNode c with
        | true => rw [hd] at h2; simp at h2
        | false =>
            rw [hd] at h2
            simp at h2
            exact h2 ▸ h3.1.1
      · exact wfEntries_fileNames rest h3.2 n h2

/-- The destination half computed for one walked file name, and the
expected entry of the enumeration, coincide. -/
theorem frame_entry_eq (base dst : String) (extra : List String) (f : String)
    (hb1 : base.data ≠ []) (hb2 : base.data.getLast? ≠ some '/')
    (hextra : ∀ n ∈ extra, wfName n = true) (hf : wfName f = true) :
    (osJoin (joinRel base extra) f,
     osJoin dst (relpath (osJoin (joinRel base extra) f) base)) =
      (joinRel base (extra ++ [f]),
       osJoin dst (joinSegStr ((extra ++ [f]).map String.data))) := by
  have hwf2 : ∀ n ∈ extra ++ [f], wfName n = true := by
    intro n hn
    rcases List.mem_append.mp hn with h | h
    · exact hextra n h
    · simp at h
      exact h ▸ hf
  rw [osJoin_joinRel base extra f hb1 hb2 hextra hf]
  rw [relpath_joinRel base (extra ++ [f]) (by simp) hwf2]

mutual

/-- Walking a well-formed node that sits at `joinRel base extra` and
collecting the `_add_package_source` entries of each frame enumerates
exactly the node's subtree files, in walk order. -/
theorem walkNode_files (t : FsNode) (base dst : String) (extra : List String)
    (hw : wfNode t = true) (hb1 : base.data ≠ [])
    (hb2 : base.data.getLast? ≠ some '/')
    (hextra : ∀ n ∈ extra, wfName n = true) :
    (walkNode (joinRel base extra) t).flatMap (frameFiles dst base) =
      (filesUnder t).map (fun rel =>
        (joinRel base (extra ++ rel),
         osJoin dst (joinSegStr ((extra ++ rel).map String.data)))) := by
  cases t with
  | file => simp [walkNode, filesUnder]
  | dir es =>
      have hw2 : wfEntries es = true := by simpa [wfNode] using hw
      rw [show walkNode (joinRel base extra) (.dir es) =
            (joinRel base extra, dirNames es, fileNames es) ::
              walkEntries (joinRel base extra) es from rfl,
          List.flatMap_cons,
          walkEntries_files es base dst extra hw2 hb1 hb2 hextra,
          show filesUnder (.dir es) =
            (fileNames es).map (fun n => [n]) ++ filesUnderSub es from rfl,
          List.map_append]
      congr 1
      rw [List.map_map]
      show (fileNames es).map _ = (fileNames es).map _
      apply List.map_congr_left
      intro f hf
      exact frame_entry_eq base dst extra f hb1 hb2 hextra
        (wfEntries_fileNames es hw2 f hf)

/-- The entry-list companion of `walkNode_files`: the subdirectory walks
of a well-formed entry list enumerate the subdirectories' files. -/
theorem walkEntries_files (es : FsEntries) (base dst : String)
    (extra : List String) (hw : wfEntries es = true) (hb1 : base.data ≠ [])
    (hb2 : base.data.getLast? ≠ some '/')
    (hextra : ∀ n ∈ extra, wfName n = true) :
    (walkEntries (joinRel base extra) es).flatMap (frameFiles dst base) =
      (filesUnderSub es).map (fun rel =>
        (joinRel base (extra ++ rel),
         osJoin dst (joinSegStr ((extra ++ rel).map String.data)))) := by
  cases es with
  | nil => simp [walkEntries, filesUnderSub]
  | cons n c rest =>
      have h3 := hw
      simp only [wfEntries, Bool.and_eq_true] at h3
      have hextra2 : ∀ m ∈ extra ++ [n], wfName m = true := by
        intro m hm
        rcases List.mem_append.mp hm with h | h
        · exact hextra m h
        · simp at h
          exact h ▸ h3.1.1
      cases c with
      | file =>
          rw [show walkEntries (joinRel base extra) (.cons n .file rest) =
                walkEntries (joinRel base extra) rest from rfl,
              show filesUnderSub (.cons n .file rest) =
                filesUnderSub rest from rfl]
          exact walkEntries_files rest base dst extra h3.2 hb1 hb2 hextra
      | dir cs =>
          rw [show walkEntries (joinRel base extra) (.cons n (.dir cs) rest) =
                walkNode (osJoin (joinRel base extra) n) (.dir cs) ++
                  walkEntries (joinRel base extra) rest from rfl,
              List.flatMap_append,
              show filesUnderSub (.cons n (.dir cs) rest) =
                (filesUnder (.dir cs)).map (n :: ·) ++ filesUnderSub rest
                from rfl,
              List.map_append,
              walkEntries_files rest base dst extra h3.2 hb1 hb2 hextra,
              osJoin_joinRel base extra n hb1 hb2 hextra h3.1.1,
              walkNode_files (.dir cs) base dst (extra ++ [n]) h3.1.2 hb1 hb2
                hextra2,
              List.map_map]
          congr 1
          apply List.map_congr_left
          intro rel _
          simp

end

/-- **C4** For every resolved filesystem source `(path, destination)` where
`path` names a directory of well-formed entry names,
`_add_package_source` appends to `data['sources']` exactly one entry per
regular file in the directory's full subtree — each entry being
`(filePath, join(destination, relativePathFromDirRoot))`, where
`filesUnder` enumerates each subtree file's relative segments exactly
once and contains nothing for directory nodes — and no entry for the
directory node itself. -/
theorem c4_directory_expansion (root : FsNode) (es : FsEntries)
    (fullname pkg_dir src dst0 path dst : String)
    (sources : List (String × String))
    (hres : get_source_path fullname pkg_dir src dst0 = .ok (path, dst))
    (hlook : fs_lookup root (segsStr path) = some (.dir es))
    (hwf : wfEntries es = true)
    (hp1 : path.data ≠ []) (hp2 : path.data.getLast? ≠ some '/') :
    add_package_source root fullname pkg_dir sources src dst0 =
      .ok (sources ++ (filesUnder (.dir es)).map (fun rel =>
        (joinRel path rel, osJoin dst (joinSegStr (rel.map String.data))))) := by
  have hfile : os_isfile root path = false := by
    unfold os_isfile
    rw [hlook]
  have hwalk : os_walk root path = walkNode path (.dir es) := by
    unfold os_walk
    rw [hlook]
  unfold add_package_source
  rw [hres]
  simp only [hfile, Bool.false_eq_true, if_false, hwalk]
  have hmain := walkNode_files (.dir es) path dst [] (by simpa [wfNode] using hwf)
    hp1 hp2 (by intro n hn; cases hn)
  rw [joinRel_nil] at hmain
  simp only [List.nil_append] at hmain
  rw [hmain]

/-- Witness for `c4_directory_expansion`: the spec's own example — a
directory `d` holding `a/b.txt` and `c.txt`, packaged with destination
`out`, yields exactly the archive-relative destinations `out/c.txt` and
`out/a/b.txt` (walk order: the directory's own files first). -/
theorem c4_directory_expansion_witness :
    add_package_source
        (.dir (.cons "d"
          (.dir (.cons "a" (.dir (.cons "b.txt" .file .nil))
            (.cons "c.txt" .file .nil))) .nil))
        "p" "" [] "d" "out" =
      .ok ([] ++
        (filesUnder (.dir (.cons "a" (.dir (.cons "b.txt" .file .nil))
            (.cons "c.txt" .file .nil)))).map (fun rel =>
          (joinRel "d" rel, osJoin "out" (joinSegStr (rel.map String.data))))) :=
  c4_directory_expansion
    (.dir (.cons "d"
      (.dir (.cons "a" (.dir (.cons "b.txt" .file .nil))
        (.cons "c.txt" .file .nil))) .nil))
    (.cons "a" (.dir (.cons "b.txt" .file .nil)) (.cons "c.txt" .file .nil))
    "p" "" "d" "out" "d" "out" []
    (by rfl) (by rfl) (by decide) (by decide) (by decide)

/-- The witness expansion evaluates to the concrete entries of the spec's
example: `d/c.txt ↦ out/c.txt` and `d/a/b.txt ↦ out/a/b.txt`, and nothing
else. -/
theorem c4_directory_expansion_example :
    ([] ++
      (filesUnder (.dir (.cons "a" (.dir (.cons "b.txt" .file .nil))
          (.cons "c.txt" .file .nil)))).map (fun rel =>
        (joinRel "d" rel, osJoin "out" (joinSegStr (rel.map String.data))))) =
      [("d/c.txt", "out/c.txt"), ("d/a/b.txt", "out/a/b.txt")] := by rfl

end PackageTarget
